import Mathlib

/-!
Verification of the dax spatial-transform core (vectors, matrices,
quaternions, and the node transform cache) against its specification.

Embedding conventions:
* float32 values are modelled as exact real numbers;
* column-major matrix storage is kept: element (row, col) of an N-row
  matrix is field mN*col+row, exactly the flat Go array index;
* Go methods that mutate their receiver are modelled as functions
  returning the updated value;
* a Go panic is modelled as Option.none.
-/

set_option maxHeartbeats 3200000

namespace Dax

/-- Modelled from the spec: the epsilon-threshold float comparison of the
repository math utilities (util file, not part of src). Section 4.1 describes
"equality with both exact and epsilon-threshold comparison"; in this
exact-real embedding there is no rounding error for the threshold to absorb,
so the tolerance collapses to exact equality. -/
def FloatEqual (a b : ℝ) : Prop := a = b

noncomputable instance (a b : ℝ) : Decidable (FloatEqual a b) :=
  inferInstanceAs (Decidable (a = b))

/-- Modelled from the spec: 3-component single-precision vector (Section 3),
an ordered sequence of floats. Field x is index 0, y index 1, z index 2 of
the Go array type Vec3 [3]float32. -/
@[ext] structure Vec3 where
  x : ℝ
  y : ℝ
  z : ℝ


namespace Vec3

/-- Modelled from the spec: component-wise addition (Section 4.1). -/
def add (a b : Vec3) : Vec3 := ⟨a.x + b.x, a.y + b.y, a.z + b.z⟩

/-- Modelled from the spec: component-wise subtraction (Section 4.1). -/
def sub (a b : Vec3) : Vec3 := ⟨a.x - b.x, a.y - b.y, a.z - b.z⟩

/-- Modelled from the spec: scaling of a vector by a constant (Section 4.1).
This is the Go method Vec3.Mul(c float32). -/
def mul (a : Vec3) (c : ℝ) : Vec3 := ⟨a.x * c, a.y * c, a.z * c⟩

/-- Modelled from the spec: dot product (Section 4.1). -/
def dot (a b : Vec3) : ℝ := a.x * b.x + a.y * b.y + a.z * b.z

/-- Modelled from the spec: cross product of 3-vectors (Section 4.1). -/
def cross (a b : Vec3) : Vec3 :=
  ⟨a.y * b.z - a.z * b.y, a.z * b.x - a.x * b.z, a.x * b.y - a.y * b.x⟩

/-- The zero vector, the value of a zero-initialised Go Vec3. -/
def zero : Vec3 := ⟨0, 0, 0⟩

end Vec3

/-- Quaternion with scalar part w and vector part v, from the source
(type Quaternion struct { W float32; V Vec3 }). -/
@[ext] structure Quaternion where
  w : ℝ
  v : Vec3


namespace Quaternion

/-- QuatIdent from the source: W = 1, V = (0,0,0). -/
def ident : Quaternion := ⟨1, Vec3.zero⟩

/-- Quaternion.Add from the source: component-wise sum. -/
def add (a b : Quaternion) : Quaternion := ⟨a.w + b.w, a.v.add b.v⟩

/-- Quaternion.Sub from the source: component-wise difference. -/
def sub (a b : Quaternion) : Quaternion := ⟨a.w - b.w, a.v.sub b.v⟩

/-- Quaternion.Mul from the source: the Hamilton product
(w1*w2 - v1.v2, v1 x v2 + w1*v2 + w2*v1). The source variants MulOf and
MulWith compute the same value with the same operand order. -/
def mul (a b : Quaternion) : Quaternion :=
  ⟨a.w * b.w - a.v.dot b.v, ((a.v.cross b.v).add (b.v.mul a.w)).add (a.v.mul b.w)⟩

/-- Quaternion.Scale from the source: every component scaled by c. -/
def scale (a : Quaternion) (c : ℝ) : Quaternion := ⟨a.w * c, a.v.mul c⟩

/-- Quaternion.Conjugated from the source: (W, -V). -/
def conjugated (a : Quaternion) : Quaternion := ⟨a.w, a.v.mul (-1)⟩

/-- Quaternion.Dot from the source: 4-component dot product. -/
def dot (a b : Quaternion) : ℝ :=
  a.w * b.w + a.v.x * b.v.x + a.v.y * b.v.y + a.v.z * b.v.z

/-- Quaternion.Len from the source: square root of the sum of squares. -/
noncomputable def len (a : Quaternion) : ℝ :=
  Real.sqrt (a.w * a.w + a.v.x * a.v.x + a.v.y * a.v.y + a.v.z * a.v.z)

/-- Quaternion.Normalized from the source: returns the quaternion unchanged
when the length is already 1, the identity quaternion when the length is 0,
and otherwise divides by the length. The source also clamps a float
infinity length to MaxValue; a float overflow has no counterpart in the
exact-real embedding, so that branch is unreachable and is omitted. -/
noncomputable def normalized (a : Quaternion) : Quaternion :=
  if FloatEqual 1 a.len then a
  else if FloatEqual a.len 0 then ident
  else let il := 1 / a.len
       ⟨a.w * il, a.v.mul il⟩

/-- Quaternion.Rotate from the source: rotation of a 3-vector by the
expanded double-cross-product formula v + 2*w*(qv x v) + (2*qv) x (qv x v). -/
def rotate (q : Quaternion) (v : Vec3) : Vec3 :=
  let cross := q.v.cross v
  let mul2 := (q.v.mul 2).cross cross
  let w2 := cross.mul (2 * q.w)
  (v.add w2).add mul2

end Quaternion

/-- QuatRotate from the source: quaternion from axis and angle,
(cos(angle/2), sin(angle/2) * axis). -/
noncomputable def QuatRotate (angle : ℝ) (axis : Vec3) : Quaternion :=
  ⟨Real.cos (angle * 0.5), axis.mul (Real.sin (angle * 0.5))⟩

/-- 2x2 column-major matrix from the source (type Mat2 [4]float32):
element (row, col) is field m(col*2+row). -/
@[ext] structure Mat2 where
  m0 : ℝ
  m1 : ℝ
  m2 : ℝ
  m3 : ℝ

namespace Mat2

/-- The zero Mat2, the value Mat2{} returned on a singular inverse. -/
def zero : Mat2 := ⟨0, 0, 0, 0⟩

/-- Ident2 from the source. -/
def ident : Mat2 := ⟨1, 0, 0, 1⟩

/-- Mat2.Mul from the source: every element scaled by the constant c. -/
def mul (m : Mat2) (c : ℝ) : Mat2 := ⟨m.m0 * c, m.m1 * c, m.m2 * c, m.m3 * c⟩

/-- Mat2.Mul2 from the source: the 2x2 matrix product in column-major form. -/
def mul2 (a b : Mat2) : Mat2 :=
  ⟨a.m0 * b.m0 + a.m2 * b.m1,
   a.m1 * b.m0 + a.m3 * b.m1,
   a.m0 * b.m2 + a.m2 * b.m3,
   a.m1 * b.m2 + a.m3 * b.m3⟩

/-- Mat2.Det from the source: m0*m3 - m1*m2. -/
def det (m : Mat2) : ℝ := m.m0 * m.m3 - m.m1 * m.m2

/-- Mat2.Inverse from the source: the zero matrix when the determinant is
numerically zero, otherwise the closed-form cofactor inverse. -/
noncomputable def inverse (m : Mat2) : Mat2 :=
  if FloatEqual m.det 0 then zero
  else
    let over := 1 / m.det
    ⟨m.m3 * over, -m.m1 * over, -m.m2 * over, m.m0 * over⟩

end Mat2

/-- 3x3 column-major matrix from the source (type Mat3 [9]float32):
element (row, col) is field m(col*3+row). -/
@[ext] structure Mat3 where
  m0 : ℝ
  m1 : ℝ
  m2 : ℝ
  m3 : ℝ
  m4 : ℝ
  m5 : ℝ
  m6 : ℝ
  m7 : ℝ
  m8 : ℝ

namespace Mat3

/-- The zero Mat3, the value Mat3{} returned on a singular inverse. -/
def zero : Mat3 := ⟨0, 0, 0, 0, 0, 0, 0, 0, 0⟩

/-- Ident3 from the source. -/
def ident : Mat3 := ⟨1, 0, 0, 0, 1, 0, 0, 0, 1⟩

/-- Mat3.Mul from the source: every element scaled by the constant c. -/
def mul (m : Mat3) (c : ℝ) : Mat3 :=
  ⟨m.m0 * c, m.m1 * c, m.m2 * c, m.m3 * c, m.m4 * c, m.m5 * c, m.m6 * c,
   m.m7 * c, m.m8 * c⟩

/-- Mat3.Mul3 from the source: the 3x3 matrix product in column-major form. -/
def mul3 (a b : Mat3) : Mat3 :=
  ⟨a.m0 * b.m0 + a.m3 * b.m1 + a.m6 * b.m2,
   a.m1 * b.m0 + a.m4 * b.m1 + a.m7 * b.m2,
   a.m2 * b.m0 + a.m5 * b.m1 + a.m8 * b.m2,
   a.m0 * b.m3 + a.m3 * b.m4 + a.m6 * b.m5,
   a.m1 * b.m3 + a.m4 * b.m4 + a.m7 * b.m5,
   a.m2 * b.m3 + a.m5 * b.m4 + a.m8 * b.m5,
   a.m0 * b.m6 + a.m3 * b.m7 + a.m6 * b.m8,
   a.m1 * b.m6 + a.m4 * b.m7 + a.m7 * b.m8,
   a.m2 * b.m6 + a.m5 * b.m7 + a.m8 * b.m8⟩

/-- Mat3.Det from the source: hard-coded cofactor expansion. -/
def det (m : Mat3) : ℝ :=
  m.m0 * m.m4 * m.m8 + m.m3 * m.m7 * m.m2 + m.m6 * m.m1 * m.m5 -
    m.m6 * m.m4 * m.m2 - m.m3 * m.m1 * m.m8 - m.m0 * m.m7 * m.m5

/-- Mat3.Inverse from the source: the zero matrix when the determinant is
numerically zero, otherwise the cofactor matrix scaled by 1/det. -/
noncomputable def inverse (m : Mat3) : Mat3 :=
  if FloatEqual m.det 0 then zero
  else
    let retMat : Mat3 :=
      ⟨m.m4 * m.m8 - m.m5 * m.m7,
       m.m2 * m.m7 - m.m1 * m.m8,
       m.m1 * m.m5 - m.m2 * m.m4,
       m.m5 * m.m6 - m.m3 * m.m8,
       m.m0 * m.m8 - m.m2 * m.m6,
       m.m2 * m.m3 - m.m0 * m.m5,
       m.m3 * m.m7 - m.m4 * m.m6,
       m.m1 * m.m6 - m.m0 * m.m7,
       m.m0 * m.m4 - m.m1 * m.m3⟩
    retMat.mul (1 / m.det)

end Mat3

/-- 4x4 column-major matrix from the source (type Mat4 [16]float32):
element (row, col) is field m(col*4+row). -/
@[ext] structure Mat4 where
  m0 : ℝ
  m1 : ℝ
  m2 : ℝ
  m3 : ℝ
  m4 : ℝ
  m5 : ℝ
  m6 : ℝ
  m7 : ℝ
  m8 : ℝ
  m9 : ℝ
  m10 : ℝ
  m11 : ℝ
  m12 : ℝ
  m13 : ℝ
  m14 : ℝ
  m15 : ℝ

namespace Mat4

/-- The zero Mat4, the value Mat4{} returned on a singular inverse. -/
def zero : Mat4 := ⟨0, 0, 0, 0, 0, 0, 0, 0, 0, 0, 0, 0, 0, 0, 0, 0⟩

/-- Ident4 from the source. -/
def ident : Mat4 := ⟨1, 0, 0, 0, 0, 1, 0, 0, 0, 0, 1, 0, 0, 0, 0, 1⟩

/-- Mat4.Mul from the source: every element scaled by the constant c. -/
def mul (m : Mat4) (c : ℝ) : Mat4 :=
  ⟨m.m0 * c, m.m1 * c, m.m2 * c, m.m3 * c, m.m4 * c, m.m5 * c, m.m6 * c,
   m.m7 * c, m.m8 * c, m.m9 * c, m.m10 * c, m.m11 * c, m.m12 * c, m.m13 * c,
   m.m14 * c, m.m15 * c⟩

/-- Mat4.Mul4 from the source: the 4x4 matrix product in column-major form. -/
def mul4 (a b : Mat4) : Mat4 :=
  ⟨a.m0 * b.m0 + a.m4 * b.m1 + a.m8 * b.m2 + a.m12 * b.m3,
   a.m1 * b.m0 + a.m5 * b.m1 + a.m9 * b.m2 + a.m13 * b.m3,
   a.m2 * b.m0 + a.m6 * b.m1 + a.m10 * b.m2 + a.m14 * b.m3,
   a.m3 * b.m0 + a.m7 * b.m1 + a.m11 * b.m2 + a.m15 * b.m3,
   a.m0 * b.m4 + a.m4 * b.m5 + a.m8 * b.m6 + a.m12 * b.m7,
   a.m1 * b.m4 + a.m5 * b.m5 + a.m9 * b.m6 + a.m13 * b.m7,
   a.m2 * b.m4 + a.m6 * b.m5 + a.m10 * b.m6 + a.m14 * b.m7,
   a.m3 * b.m4 + a.m7 * b.m5 + a.m11 * b.m6 + a.m15 * b.m7,
   a.m0 * b.m8 + a.m4 * b.m9 + a.m8 * b.m10 + a.m12 * b.m11,
   a.m1 * b.m8 + a.m5 * b.m9 + a.m9 * b.m10 + a.m13 * b.m11,
   a.m2 * b.m8 + a.m6 * b.m9 + a.m10 * b.m10 + a.m14 * b.m11,
   a.m3 * b.m8 + a.m7 * b.m9 + a.m11 * b.m10 + a.m15 * b.m11,
   a.m0 * b.m12 + a.m4 * b.m13 + a.m8 * b.m14 + a.m12 * b.m15,
   a.m1 * b.m12 + a.m5 * b.m13 + a.m9 * b.m14 + a.m13 * b.m15,
   a.m2 * b.m12 + a.m6 * b.m13 + a.m10 * b.m14 + a.m14 * b.m15,
   a.m3 * b.m12 + a.m7 * b.m13 + a.m11 * b.m14 + a.m15 * b.m15⟩

/-- Mat4.Det from the source: hard-coded cofactor expansion. -/
def det (m : Mat4) : ℝ :=
  m.m0 * m.m5 * m.m10 * m.m15 - m.m0 * m.m5 * m.m11 * m.m14 -
    m.m0 * m.m6 * m.m9 * m.m15 + m.m0 * m.m6 * m.m11 * m.m13 +
    m.m0 * m.m7 * m.m9 * m.m14 - m.m0 * m.m7 * m.m10 * m.m13 -
    m.m1 * m.m4 * m.m10 * m.m15 + m.m1 * m.m4 * m.m11 * m.m14 +
    m.m1 * m.m6 * m.m8 * m.m15 - m.m1 * m.m6 * m.m11 * m.m12 -
    m.m1 * m.m7 * m.m8 * m.m14 + m.m1 * m.m7 * m.m10 * m.m12 +
    m.m2 * m.m4 * m.m9 * m.m15 - m.m2 * m.m4 * m.m11 * m.m13 -
    m.m2 * m.m5 * m.m8 * m.m15 + m.m2 * m.m5 * m.m11 * m.m12 +
    m.m2 * m.m7 * m.m8 * m.m13 - m.m2 * m.m7 * m.m9 * m.m12 -
    m.m3 * m.m4 * m.m9 * m.m14 + m.m3 * m.m4 * m.m10 * m.m13 +
    m.m3 * m.m5 * m.m8 * m.m14 - m.m3 * m.m5 * m.m10 * m.m12 -
    m.m3 * m.m6 * m.m8 * m.m13 + m.m3 * m.m6 * m.m9 * m.m12

/-- Mat4.Inverse from the source: the zero matrix when the determinant is
numerically zero, otherwise the cofactor matrix (written in the source with
precomputed pair products, expanded here) scaled by 1/det. -/
noncomputable def inverse (m : Mat4) : Mat4 :=
  if FloatEqual m.det 0 then zero
  else
    let v0 := m.m0
    let v1 := m.m1
    let v2 := m.m2
    let v3 := m.m3
    let v4 := m.m4
    let v5 := m.m5
    let v6 := m.m6
    let v7 := m.m7
    let v8 := m.m8
    let v9 := m.m9
    let v10 := m.m10
    let v11 := m.m11
    let v12 := m.m12
    let v13 := m.m13
    let v14 := m.m14
    let v15 := m.m15
    let retMat : Mat4 :=
      ⟨-(v7 * v10) * v13 + v6 * v11 * v13 + v7 * v9 * v14 - v5 * v11 * v14 -
          v6 * v9 * v15 + v5 * v10 * v15,
       v3 * v13 * v10 - v2 * v13 * v11 - v3 * v14 * v9 + v1 * v11 * v14 +
         v2 * v15 * v9 - v1 * (v10 * v15),
       -(v3 * v13) * v6 + v2 * v13 * v7 + v3 * v14 * v5 - v1 * (v7 * v14) -
         v2 * v15 * v5 + v1 * (v6 * v15),
       v3 * (v6 * v9) - v2 * (v7 * v9) - v3 * (v5 * v10) + v1 * (v7 * v10) +
         v2 * (v5 * v11) - v1 * (v6 * v11),
       v7 * v10 * v12 - v6 * v11 * v12 - v7 * v8 * v14 + v4 * v11 * v14 +
         v6 * v8 * v15 - v4 * v10 * v15,
       -(v3 * v12) * v10 + v2 * v12 * v11 + v3 * v14 * v8 - v0 * v11 * v14 -
         v2 * v15 * v8 + v0 * (v10 * v15),
       v3 * v12 * v6 - v2 * v12 * v7 - v3 * v14 * v4 + v0 * (v7 * v14) +
         v2 * v15 * v4 - v0 * (v6 * v15),
       -v3 * (v6 * v8) + v2 * (v7 * v8) + v3 * (v4 * v10) - v0 * (v7 * v10) -
         v2 * (v4 * v11) + v0 * (v6 * v11),
       -(v7 * v9) * v12 + v5 * v11 * v12 + v7 * v8 * v13 - v4 * v11 * v13 -
         v5 * v8 * v15 + v4 * v9 * v15,
       v3 * v12 * v9 - v1 * v12 * v11 - v3 * v13 * v8 + v0 * v11 * v13 +
         v1 * v8 * v15 - v0 * v9 * v15,
       -(v3 * v12) * v5 + v1 * v12 * v7 + v3 * v13 * v4 - v0 * v13 * v7 -
         v1 * v4 * v15 + v0 * v5 * v15,
       v3 * (v5 * v8) - v1 * (v7 * v8) - v3 * (v4 * v9) + v0 * (v7 * v9) +
         v1 * v4 * v11 - v0 * (v5 * v11),
       v6 * v9 * v12 - v5 * v10 * v12 - v6 * v8 * v13 + v4 * v10 * v13 +
         v5 * v8 * v14 - v4 * v9 * v14,
       -(v2 * v12) * v9 + v1 * v12 * v10 + v2 * v13 * v8 - v0 * v13 * v10 -
         v1 * v8 * v14 + v0 * v9 * v14,
       v2 * v12 * v5 - v1 * v12 * v6 - v2 * v13 * v4 + v0 * v13 * v6 +
         v1 * v4 * v14 - v0 * v5 * v14,
       -v2 * (v5 * v8) + v1 * (v6 * v8) + v2 * (v4 * v9) - v0 * (v6 * v9) -
         v1 * v4 * v10 + v0 * (v5 * v10)⟩
    retMat.mul (1 / m.det)

end Mat4

/-- 2x3 column-major matrix from the source (type Mat2x3 [6]float32):
element (row, col) is field m(col*2+row). It represents the affine 3x3
matrix with implicit last row [0 0 1]. -/
@[ext] structure Mat2x3 where
  m0 : ℝ
  m1 : ℝ
  m2 : ℝ
  m3 : ℝ
  m4 : ℝ
  m5 : ℝ

namespace Mat2x3

/-- The zero Mat2x3, the value Mat2x3{} returned on a singular inverse. -/
def zero : Mat2x3 := ⟨0, 0, 0, 0, 0, 0⟩

/-- Mat2x3.Mul from the source: every element scaled by the constant c. -/
def mul (m : Mat2x3) (c : ℝ) : Mat2x3 :=
  ⟨m.m0 * c, m.m1 * c, m.m2 * c, m.m3 * c, m.m4 * c, m.m5 * c⟩

/-- Mat2x3.Mul2x3 from the source: affine product assuming the last row of
both matrices is [0 0 1]. -/
def mul2x3 (a b : Mat2x3) : Mat2x3 :=
  ⟨a.m0 * b.m0 + a.m2 * b.m1,
   a.m1 * b.m0 + a.m3 * b.m1,
   a.m0 * b.m2 + a.m2 * b.m3,
   a.m1 * b.m2 + a.m3 * b.m3,
   a.m0 * b.m4 + a.m2 * b.m5 + a.m4,
   a.m1 * b.m4 + a.m3 * b.m5 + a.m5⟩

/-- Mat2x3.Det from the source: determinant of the affine matrix with
implicit last row [0 0 1]. -/
def det (m : Mat2x3) : ℝ := m.m0 * m.m3 - m.m2 * m.m1

/-- Mat2x3.Inverse from the source, transcribed exactly: the zero matrix
when the determinant is numerically zero, otherwise the matrix the source
builds (note the source writes m1 where the affine cofactor inverse needs
m2 in the third and fifth entries). -/
noncomputable def inverse (m : Mat2x3) : Mat2x3 :=
  if FloatEqual m.det 0 then zero
  else
    let retMat : Mat2x3 :=
      ⟨m.m3,
       -m.m1,
       -m.m1,
       m.m0,
       m.m1 * m.m5 - m.m3 * m.m4,
       m.m1 * m.m4 - m.m0 * m.m5⟩
    retMat.mul (1 / m.det)

/-- Mat2x3.Mat3 from the source: embedding into a full 3x3 matrix with the
last row made explicit as [0 0 1]. -/
def mat3 (m : Mat2x3) : Mat3 :=
  ⟨m.m0, m.m1, 0, m.m2, m.m3, 0, m.m4, m.m5, 1⟩

end Mat2x3

/-- Modelled from the spec: Clamp of a value into [lo, hi] (util file, not
part of src). -/
def Clamp (x lo hi : ℝ) : ℝ := min (max x lo) hi

/-- QuatLerp from the source: q1 + (q2 - q1) * amount. -/
noncomputable def QuatLerp (q1 q2 : Quaternion) (amount : ℝ) : Quaternion :=
  q1.add ((q2.sub q1).scale amount)

/-- QuatNlerp from the source: QuatLerp followed by Normalized. -/
noncomputable def QuatNlerp (q1 q2 : Quaternion) (amount : ℝ) : Quaternion :=
  (QuatLerp q1 q2 amount).normalized

/-- QuatSlerp from the source: normalize both inputs; if their dot product
exceeds 0.9995 fall back to QuatNlerp; otherwise clamp the dot product,
take theta = acos(dot) * amount and combine n1*cos(theta) with the
normalized orthogonal remainder scaled by sin(theta). -/
noncomputable def QuatSlerp (q1 q2 : Quaternion) (amount : ℝ) : Quaternion :=
  let n1 := q1.normalized
  let n2 := q2.normalized
  let dot := n1.dot n2
  if dot > 0.9995 then QuatNlerp n1 n2 amount
  else
    let dotc := Clamp dot (-1) 1
    let theta := Real.arccos dotc * amount
    let c := Real.cos theta
    let s := Real.sin theta
    let n1dot := n1.scale dotc
    let n2n1dot := n2.sub n1dot
    let rel := (n2n1dot.normalized).scale s
    let n1c := n1.scale c
    n1c.add rel

/-- RotationOrder constant XYX = 0 from the source (iota block); the Go
type RotationOrder is an int, modelled as ℤ. -/
def XYX : ℤ := 0

/-- RotationOrder constant XYZ = 1 from the source. -/
def XYZ : ℤ := 1

/-- RotationOrder constant XZX = 2 from the source. -/
def XZX : ℤ := 2

/-- RotationOrder constant XZY = 3 from the source. -/
def XZY : ℤ := 3

/-- RotationOrder constant YXY = 4 from the source. -/
def YXY : ℤ := 4

/-- RotationOrder constant YXZ = 5 from the source. -/
def YXZ : ℤ := 5

/-- RotationOrder constant YZY = 6 from the source. -/
def YZY : ℤ := 6

/-- RotationOrder constant YZX = 7 from the source. -/
def YZX : ℤ := 7

/-- RotationOrder constant ZYZ = 8 from the source. -/
def ZYZ : ℤ := 8

/-- RotationOrder constant ZYX = 9 from the source. -/
def ZYX : ℤ := 9

/-- RotationOrder constant ZXZ = 10 from the source. -/
def ZXZ : ℤ := 10

/-- RotationOrder constant ZXY = 11 from the source. -/
def ZXY : ℤ := 11

/-- AnglesToQuat from the source: builds a quaternion from three angles
interpreted along the axis descriptor given by the rotation order. The Go
switch on the order is a chain of equality tests in the source case order;
the default case panics, modelled as none. -/
noncomputable def AnglesToQuat (angle1 angle2 angle3 : ℝ) (order : ℤ) :
    Option Quaternion :=
  let s0 := Real.sin (angle1 / 2)
  let c0 := Real.cos (angle1 / 2)
  let s1 := Real.sin (angle2 / 2)
  let c1 := Real.cos (angle2 / 2)
  let s2 := Real.sin (angle3 / 2)
  let c2 := Real.cos (angle3 / 2)
  if order = ZYX then
    some ⟨c0 * c1 * c2 + s0 * s1 * s2,
          ⟨c0 * c1 * s2 - s0 * s1 * c2,
           c0 * s1 * c2 + s0 * c1 * s2,
           s0 * c1 * c2 - c0 * s1 * s2⟩⟩
  else if order = ZYZ then
    some ⟨c0 * c1 * c2 - s0 * c1 * s2,
          ⟨c0 * s1 * s2 - s0 * s1 * c2,
           c0 * s1 * c2 + s0 * s1 * s2,
           s0 * c1 * c2 + c0 * c1 * s2⟩⟩
  else if order = ZXY then
    some ⟨c0 * c1 * c2 - s0 * s1 * s2,
          ⟨c0 * s1 * c2 - s0 * c1 * s2,
           c0 * c1 * s2 + s0 * s1 * c2,
           c0 * s1 * s2 + s0 * c1 * c2⟩⟩
  else if order = ZXZ then
    some ⟨c0 * c1 * c2 - s0 * c1 * s2,
          ⟨c0 * s1 * c2 + s0 * s1 * s2,
           s0 * s1 * c2 - c0 * s1 * s2,
           c0 * c1 * s2 + s0 * c1 * c2⟩⟩
  else if order = YXZ then
    some ⟨c0 * c1 * c2 + s0 * s1 * s2,
          ⟨c0 * s1 * c2 + s0 * c1 * s2,
           s0 * c1 * c2 - c0 * s1 * s2,
           c0 * c1 * s2 - s0 * s1 * c2⟩⟩
  else if order = YXY then
    some ⟨c0 * c1 * c2 - s0 * c1 * s2,
          ⟨c0 * s1 * c2 + s0 * s1 * s2,
           s0 * c1 * c2 + c0 * c1 * s2,
           c0 * s1 * s2 - s0 * s1 * c2⟩⟩
  else if order = YZX then
    some ⟨c0 * c1 * c2 - s0 * s1 * s2,
          ⟨c0 * c1 * s2 + s0 * s1 * c2,
           c0 * s1 * s2 + s0 * c1 * c2,
           c0 * s1 * c2 - s0 * c1 * s2⟩⟩
  else if order = YZY then
    some ⟨c0 * c1 * c2 - s0 * c1 * s2,
          ⟨s0 * s1 * c2 - c0 * s1 * s2,
           c0 * c1 * s2 + s0 * c1 * c2,
           c0 * s1 * c2 + s0 * s1 * s2⟩⟩
  else if order = XYZ then
    some ⟨c0 * c1 * c2 - s0 * s1 * s2,
          ⟨c0 * s1 * s2 + s0 * c1 * c2,
           c0 * s1 * c2 - s0 * c1 * s2,
           c0 * c1 * s2 + s0 * s1 * c2⟩⟩
  else if order = XYX then
    some ⟨c0 * c1 * c2 - s0 * c1 * s2,
          ⟨c0 * c1 * s2 + s0 * c1 * c2,
           c0 * s1 * c2 + s0 * s1 * s2,
           s0 * s1 * c2 - c0 * s1 * s2⟩⟩
  else if order = XZY then
    some ⟨c0 * c1 * c2 + s0 * s1 * s2,
          ⟨s0 * c1 * c2 - c0 * s1 * s2,
           c0 * c1 * s2 - s0 * s1 * c2,
           c0 * s1 * c2 + s0 * c1 * s2⟩⟩
  else if order = XZX then
    some ⟨c0 * c1 * c2 - s0 * c1 * s2,
          ⟨c0 * c1 * s2 + s0 * c1 * c2,
           c0 * s1 * s2 - s0 * s1 * c2,
           c0 * s1 * c2 + s0 * s1 * s2⟩⟩
  else none

/-- Quaternion.Mat4 from the source: the homogeneous rotation matrix of the
quaternion, with last row and column [0 0 0 1]. -/
def Quaternion.mat4 (q : Quaternion) : Mat4 :=
  ⟨1 - 2 * q.v.y * q.v.y - 2 * q.v.z * q.v.z,
   2 * q.v.x * q.v.y + 2 * q.w * q.v.z,
   2 * q.v.x * q.v.z - 2 * q.w * q.v.y,
   0,
   2 * q.v.x * q.v.y - 2 * q.w * q.v.z,
   1 - 2 * q.v.x * q.v.x - 2 * q.v.z * q.v.z,
   2 * q.v.y * q.v.z + 2 * q.w * q.v.x,
   0,
   2 * q.v.x * q.v.z + 2 * q.w * q.v.y,
   2 * q.v.y * q.v.z - 2 * q.w * q.v.x,
   1 - 2 * q.v.x * q.v.x - 2 * q.v.y * q.v.y,
   0,
   0, 0, 0, 1⟩

/-- Modelled from the spec: Transform.SetTranslateVec3 of the transform
file (not part of src). Section 4.2: the composition starts from identity
with the translation column set from position. -/
def setTranslateVec3 (p : Vec3) : Mat4 :=
  ⟨1, 0, 0, 0, 0, 1, 0, 0, 0, 0, 1, 0, p.x, p.y, p.z, 1⟩

/-- Modelled from the spec: the scale matrix diag(sx, sy, sz, 1) used when
multiplying the scale into the transform (Section 4.2). -/
def scaleMat4 (s : Vec3) : Mat4 :=
  ⟨s.x, 0, 0, 0, 0, s.y, 0, 0, 0, 0, s.z, 0, 0, 0, 0, 1⟩

/-- Modelled from the spec: Transform.RotateQuat of the transform file (not
part of src). Section 4.2: the rotation derived from the quaternion is
multiplied into the matrix. -/
def rotateQuat (m : Mat4) (q : Quaternion) : Mat4 := m.mul4 q.mat4

/-- Modelled from the spec: Transform.ScaleVec3 of the transform file (not
part of src). Section 4.2: the scale is multiplied into the matrix. -/
def scaleVec3 (m : Mat4) (s : Vec3) : Mat4 := m.mul4 (scaleMat4 s)

/-- The direct composition T(position) * R(rotation) * S(scale) of
Section 4.2, computed independently of the node cache. -/
def trsCompose (p : Vec3) (q : Quaternion) (s : Vec3) : Mat4 :=
  scaleVec3 (rotateQuat (setTranslateVec3 p) q) s

/-- Node from the source: local TRS state plus the cached local transform
and its validity flag. The parent and children fields take no part in the
local-transform claims and are omitted. -/
structure Node where
  position : Vec3
  rotation : Quaternion
  scale : Vec3
  transformValid : Bool
  transform : Mat4

namespace Node

/-- NewNode from the source: Go zero value (zero position, invalid cache,
zero cached matrix) followed by Init, which sets the identity rotation and
unit scale. -/
def new : Node :=
  { position := Vec3.zero
    rotation := Quaternion.ident
    scale := ⟨1, 1, 1⟩
    transformValid := false
    transform := Mat4.zero }

/-- Node.SetPosition from the source. -/
def setPosition (n : Node) (x y z : ℝ) : Node :=
  { n with position := ⟨x, y, z⟩, transformValid := false }

/-- Node.SetPositionV from the source. -/
def setPositionV (n : Node) (v : Vec3) : Node :=
  { n with position := v, transformValid := false }

/-- Node.TranslateX from the source: pure addition to position.x. -/
def translateX (n : Node) (tx : ℝ) : Node :=
  { n with position := ⟨n.position.x + tx, n.position.y, n.position.z⟩,
           transformValid := false }

/-- Node.TranslateY from the source. -/
def translateY (n : Node) (ty : ℝ) : Node :=
  { n with position := ⟨n.position.x, n.position.y + ty, n.position.z⟩,
           transformValid := false }

/-- Node.TranslateZ from the source. -/
def translateZ (n : Node) (tz : ℝ) : Node :=
  { n with position := ⟨n.position.x, n.position.y, n.position.z + tz⟩,
           transformValid := false }

/-- Node.SetRotation from the source. -/
def setRotation (n : Node) (q : Quaternion) : Node :=
  { n with rotation := q, transformValid := false }

/-- Node.RotateAroundAxis from the source: q := QuatRotate(angle, axis)
followed by rotation.MulWith(&q), which sets rotation to rotation * q. -/
noncomputable def rotateAroundAxis (n : Node) (axis : Vec3) (angle : ℝ) : Node :=
  { n with rotation := n.rotation.mul (QuatRotate angle axis),
           transformValid := false }

/-- Node.RotateX from the source: RotateAroundAxis about (1,0,0) followed
by a redundant second invalidation. -/
noncomputable def rotateX (n : Node) (angle : ℝ) : Node :=
  { n.rotateAroundAxis ⟨1, 0, 0⟩ angle with transformValid := false }

/-- Node.RotateY from the source. -/
noncomputable def rotateY (n : Node) (angle : ℝ) : Node :=
  { n.rotateAroundAxis ⟨0, 1, 0⟩ angle with transformValid := false }

/-- Node.RotateZ from the source. -/
noncomputable def rotateZ (n : Node) (angle : ℝ) : Node :=
  { n.rotateAroundAxis ⟨0, 0, 1⟩ angle with transformValid := false }

/-- Node.SetScale from the source. -/
def setScale (n : Node) (sx sy sz : ℝ) : Node :=
  { n with scale := ⟨sx, sy, sz⟩, transformValid := false }

/-- Node.SetScaleV from the source. -/
def setScaleV (n : Node) (s : Vec3) : Node :=
  { n with scale := s, transformValid := false }

/-- Node.ScaleX from the source: component-wise multiplication. -/
def scaleX (n : Node) (sx : ℝ) : Node :=
  { n with scale := ⟨n.scale.x * sx, n.scale.y, n.scale.z⟩,
           transformValid := false }

/-- Node.ScaleY from the source. -/
def scaleY (n : Node) (sy : ℝ) : Node :=
  { n with scale := ⟨n.scale.x, n.scale.y * sy, n.scale.z⟩,
           transformValid := false }

/-- Node.ScaleZ from the source. -/
def scaleZ (n : Node) (sz : ℝ) : Node :=
  { n with scale := ⟨n.scale.x, n.scale.y, n.scale.z * sz⟩,
           transformValid := false }

/-- Node.getTransform from the source: return the cached matrix when the
flag is valid; otherwise recompose translation, rotation and scale in that
order, store the matrix, set the flag and return it. The pair carries the
returned matrix together with the updated node. -/
noncomputable def getTransform (n : Node) : Mat4 × Node :=
  if n.transformValid then (n.transform, n)
  else
    let t := scaleVec3 (rotateQuat (setTranslateVec3 n.position) n.rotation) n.scale
    (t, { n with transform := t, transformValid := true })

/-- Modelled from the source GetPosition: it returns the address of the
internal position field, so a Go store through the returned pointer
overwrites position and leaves every other field, in particular
transformValid, untouched. -/
def storeThroughGetPosition (n : Node) (v : Vec3) : Node :=
  { n with position := v }

end Node

/-- One call of a TRS mutator of the Node public interface, with its
arguments. -/
inductive Mutator where
  | setPosition (x y z : ℝ)
  | setPositionV (v : Vec3)
  | translateX (t : ℝ)
  | translateY (t : ℝ)
  | translateZ (t : ℝ)
  | setRotation (q : Quaternion)
  | rotateAroundAxis (axis : Vec3) (angle : ℝ)
  | rotateX (angle : ℝ)
  | rotateY (angle : ℝ)
  | rotateZ (angle : ℝ)
  | setScale (x y z : ℝ)
  | setScaleV (v : Vec3)
  | scaleX (s : ℝ)
  | scaleY (s : ℝ)
  | scaleZ (s : ℝ)

/-- Dispatch of one mutator call to the corresponding Node method. -/
noncomputable def applyMutator (m : Mutator) (n : Node) : Node :=
  match m with
  | .setPosition x y z => n.setPosition x y z
  | .setPositionV v => n.setPositionV v
  | .translateX t => n.translateX t
  | .translateY t => n.translateY t
  | .translateZ t => n.translateZ t
  | .setRotation q => n.setRotation q
  | .rotateAroundAxis axis angle => n.rotateAroundAxis axis angle
  | .rotateX angle => n.rotateX angle
  | .rotateY angle => n.rotateY angle
  | .rotateZ angle => n.rotateZ angle
  | .setScale x y z => n.setScale x y z
  | .setScaleV v => n.setScaleV v
  | .scaleX s => n.scaleX s
  | .scaleY s => n.scaleY s
  | .scaleZ s => n.scaleZ s

/-- A whole sequence of mutator calls, applied in order. -/
noncomputable def applyMutators (ms : List Mutator) (n : Node) : Node :=
  ms.foldl (fun n m => applyMutator m n) n

/-! Helper lemmas about the closed-form inverses. -/

theorem Mat2.mul2_inverse (m : Mat2) (h : ¬ FloatEqual m.det 0) :
    m.mul2 m.inverse = Mat2.ident := by
  have hd : m.det ≠ 0 := h
  unfold Mat2.det at hd
  unfold Mat2.inverse
  rw [if_neg h]
  ext <;> simp only [Mat2.mul2, Mat2.ident, Mat2.det] <;> field_simp <;> ring

theorem Mat3.mul3_inverse (m : Mat3) (h : ¬ FloatEqual m.det 0) :
    m.mul3 m.inverse = Mat3.ident := by
  have hd : m.det ≠ 0 := h
  unfold Mat3.det at hd
  unfold Mat3.inverse
  rw [if_neg h]
  ext <;> simp only [Mat3.mul3, Mat3.mul, Mat3.ident, Mat3.det] <;>
    field_simp <;> ring

theorem Mat4.mul4_inverse (m : Mat4) (h : ¬ FloatEqual m.det 0) :
    m.mul4 m.inverse = Mat4.ident := by
  have hd : m.det ≠ 0 := h
  unfold Mat4.det at hd
  unfold Mat4.inverse
  rw [if_neg h]
  ext <;> simp only [Mat4.mul4, Mat4.mul, Mat4.ident, Mat4.det] <;>
    field_simp <;> ring

theorem Mat2.mul2_zero (m : Mat2) : m.mul2 Mat2.zero = Mat2.zero := by
  ext <;> simp [Mat2.mul2, Mat2.zero]

theorem Mat3.mul3_zero (m : Mat3) : m.mul3 Mat3.zero = Mat3.zero := by
  ext <;> simp [Mat3.mul3, Mat3.zero]

theorem Mat4.mul4_zero (m : Mat4) : m.mul4 Mat4.zero = Mat4.zero := by
  ext <;> simp [Mat4.mul4, Mat4.zero]

theorem Mat2.ident_ne_zero2 : Mat2.ident ≠ Mat2.zero := by
  intro h
  have := congrArg Mat2.m0 h
  norm_num [Mat2.ident, Mat2.zero] at this

theorem Mat3.ident_ne_zero3 : Mat3.ident ≠ Mat3.zero := by
  intro h
  have := congrArg Mat3.m0 h
  norm_num [Mat3.ident, Mat3.zero] at this

theorem Mat4.ident_ne_zero4 : Mat4.ident ≠ Mat4.zero := by
  intro h
  have := congrArg Mat4.m0 h
  norm_num [Mat4.ident, Mat4.zero] at this

/-- C4: for every 2x2, 3x3 or 4x4 matrix whose determinant is not
numerically zero, multiplying the matrix by its Inverse yields the identity
matrix of the same dimension. In the exact-real embedding the product is
exactly the identity, hence within the 1e-6 per-element tolerance. -/
theorem matrix_inverse_roundtrip :
    (∀ m : Mat2, ¬ FloatEqual m.det 0 → m.mul2 m.inverse = Mat2.ident) ∧
    (∀ m : Mat3, ¬ FloatEqual m.det 0 → m.mul3 m.inverse = Mat3.ident) ∧
    (∀ m : Mat4, ¬ FloatEqual m.det 0 → m.mul4 m.inverse = Mat4.ident) :=
  ⟨Mat2.mul2_inverse, Mat3.mul3_inverse, Mat4.mul4_inverse⟩

/-- Witness for C4 at concrete invertible matrices of all three dimensions. -/
theorem matrix_inverse_roundtrip_witness :
    (¬ FloatEqual (Mat2.det ⟨1, 2, 3, 4⟩) 0 ∧
      Mat2.mul2 ⟨1, 2, 3, 4⟩ (Mat2.inverse ⟨1, 2, 3, 4⟩) = Mat2.ident) ∧
    (¬ FloatEqual (Mat3.det Mat3.ident) 0 ∧
      Mat3.mul3 Mat3.ident (Mat3.inverse Mat3.ident) = Mat3.ident) ∧
    (¬ FloatEqual (Mat4.det Mat4.ident) 0 ∧
      Mat4.mul4 Mat4.ident (Mat4.inverse Mat4.ident) = Mat4.ident) :=
  ⟨⟨by norm_num [FloatEqual, Mat2.det],
    matrix_inverse_roundtrip.1 _ (by norm_num [FloatEqual, Mat2.det])⟩,
   ⟨by norm_num [FloatEqual, Mat3.det, Mat3.ident],
    matrix_inverse_roundtrip.2.1 _ (by norm_num [FloatEqual, Mat3.det, Mat3.ident])⟩,
   ⟨by norm_num [FloatEqual, Mat4.det, Mat4.ident],
    matrix_inverse_roundtrip.2.2 _ (by norm_num [FloatEqual, Mat4.det, Mat4.ident])⟩⟩

/-- C5: for every 2x2, 3x3 or 4x4 matrix with numerically zero determinant,
Inverse returns the all-zero matrix (and, being a total function, raises no
error); for a numerically nonzero determinant the zero-matrix branch is not
taken, observable as the result being different from the zero matrix. -/
theorem singular_inverse_returns_zero :
    (∀ m : Mat2, (FloatEqual m.det 0 → m.inverse = Mat2.zero) ∧
        (¬ FloatEqual m.det 0 → m.inverse ≠ Mat2.zero)) ∧
    (∀ m : Mat3, (FloatEqual m.det 0 → m.inverse = Mat3.zero) ∧
        (¬ FloatEqual m.det 0 → m.inverse ≠ Mat3.zero)) ∧
    (∀ m : Mat4, (FloatEqual m.det 0 → m.inverse = Mat4.zero) ∧
        (¬ FloatEqual m.det 0 → m.inverse ≠ Mat4.zero)) := by
  refine ⟨fun m => ⟨fun h => ?_, fun h hz => ?_⟩,
          fun m => ⟨fun h => ?_, fun h hz => ?_⟩,
          fun m => ⟨fun h => ?_, fun h hz => ?_⟩⟩
  · unfold Mat2.inverse; rw [if_pos h]
  · have hq := Mat2.mul2_inverse m h
    rw [hz, Mat2.mul2_zero] at hq
    exact Mat2.ident_ne_zero2 hq.symm
  · unfold Mat3.inverse; rw [if_pos h]
  · have hq := Mat3.mul3_inverse m h
    rw [hz, Mat3.mul3_zero] at hq
    exact Mat3.ident_ne_zero3 hq.symm
  · unfold Mat4.inverse; rw [if_pos h]
  · have hq := Mat4.mul4_inverse m h
    rw [hz, Mat4.mul4_zero] at hq
    exact Mat4.ident_ne_zero4 hq.symm

/-- Witness for C5: a singular and a nonsingular concrete matrix for each
dimension. -/
theorem singular_inverse_returns_zero_witness :
    (Mat2.inverse ⟨1, 2, 2, 4⟩ = Mat2.zero ∧ Mat2.inverse Mat2.ident ≠ Mat2.zero) ∧
    (Mat3.inverse Mat3.zero = Mat3.zero ∧ Mat3.inverse Mat3.ident ≠ Mat3.zero) ∧
    (Mat4.inverse Mat4.zero = Mat4.zero ∧ Mat4.inverse Mat4.ident ≠ Mat4.zero) :=
  ⟨⟨(singular_inverse_returns_zero.1 _).1 (by norm_num [FloatEqual, Mat2.det]),
    (singular_inverse_returns_zero.1 _).2 (by norm_num [FloatEqual, Mat2.det, Mat2.ident])⟩,
   ⟨(singular_inverse_returns_zero.2.1 _).1 (by norm_num [FloatEqual, Mat3.det, Mat3.zero]),
    (singular_inverse_returns_zero.2.1 _).2 (by norm_num [FloatEqual, Mat3.det, Mat3.ident])⟩,
   ⟨(singular_inverse_returns_zero.2.2 _).1 (by norm_num [FloatEqual, Mat4.det, Mat4.zero]),
    (singular_inverse_returns_zero.2.2 _).2 (by norm_num [FloatEqual, Mat4.det, Mat4.ident])⟩⟩

/-- C6: the claimed affine round-trip for Mat2x3 fails on the code. For the
shear matrix M = [[1 1 0], [0 1 0], [0 0 1]] (stored as Mat2x3{1,0,1,1,0,0},
determinant 1), Inverse returns the identity instead of the inverse shear
because the source writes m1 where the cofactor formula needs m2, so
M.Mul2x3(M.Inverse()).Mat3() is M itself, not the 3x3 identity. -/
theorem mat2x3_inverse_roundtrip_fails :
    ¬ FloatEqual (Mat2x3.det ⟨1, 0, 1, 1, 0, 0⟩) 0 ∧
    (Mat2x3.mul2x3 ⟨1, 0, 1, 1, 0, 0⟩
        (Mat2x3.inverse ⟨1, 0, 1, 1, 0, 0⟩)).mat3 ≠ Mat3.ident := by
  have h : ¬ FloatEqual (Mat2x3.det ⟨1, 0, 1, 1, 0, 0⟩) 0 := by
    norm_num [FloatEqual, Mat2x3.det]
  refine ⟨h, ?_⟩
  have hinv : Mat2x3.inverse ⟨1, 0, 1, 1, 0, 0⟩ = ⟨1, 0, 0, 1, 0, 0⟩ := by
    unfold Mat2x3.inverse
    rw [if_neg h]
    ext <;> norm_num [Mat2x3.mul, Mat2x3.det]
  rw [hinv]
  intro hEq
  have := congrArg Mat3.m3 hEq
  norm_num [Mat2x3.mul2x3, Mat2x3.mat3, Mat3.ident] at this

/-! Helper lemmas about quaternion length, normalization and interpolation. -/

theorem Quaternion.dot_self_nonneg (q : Quaternion) : 0 ≤ q.dot q := by
  unfold Quaternion.dot
  nlinarith [mul_self_nonneg q.w, mul_self_nonneg q.v.x, mul_self_nonneg q.v.y,
    mul_self_nonneg q.v.z]

theorem Quaternion.len_def (q : Quaternion) : q.len = Real.sqrt (q.dot q) := rfl

theorem Quaternion.len_eq_one_iff (q : Quaternion) : q.len = 1 ↔ q.dot q = 1 := by
  rw [Quaternion.len_def]
  exact Real.sqrt_eq_one

theorem Quaternion.normalized_of_len_one {q : Quaternion} (h : q.len = 1) :
    q.normalized = q := by
  unfold Quaternion.normalized
  rw [if_pos (show FloatEqual 1 q.len from h.symm)]

theorem Quaternion.scale_one (q : Quaternion) : q.scale 1 = q := by
  ext <;> simp [Quaternion.scale, Vec3.mul]

theorem Quaternion.scale_scale (q : Quaternion) (c e : ℝ) :
    (q.scale c).scale e = q.scale (c * e) := by
  ext <;> simp [Quaternion.scale, Vec3.mul] <;> ring

theorem Quaternion.normalized_of_len_ne_zero {q : Quaternion} (h : q.len ≠ 0) :
    q.normalized = q.scale (1 / q.len) := by
  unfold Quaternion.normalized
  by_cases h1 : FloatEqual 1 q.len
  · rw [if_pos h1]
    have hl : q.len = 1 := h1.symm
    rw [hl]
    norm_num [Quaternion.scale_one]
  · rw [if_neg h1, if_neg (fun hh : FloatEqual q.len 0 => h hh)]
    rfl

theorem Quaternion.dot_scale_self (q : Quaternion) (c : ℝ) :
    (q.scale c).dot (q.scale c) = c ^ 2 * q.dot q := by
  unfold Quaternion.dot Quaternion.scale Vec3.mul
  ring

theorem Quaternion.len_scale (q : Quaternion) (c : ℝ) :
    (q.scale c).len = |c| * q.len := by
  rw [Quaternion.len_def, Quaternion.len_def, Quaternion.dot_scale_self,
    Real.sqrt_mul (sq_nonneg c), Real.sqrt_sq_eq_abs]

theorem Quaternion.len_ident : Quaternion.ident.len = 1 := by
  unfold Quaternion.len Quaternion.ident Vec3.zero
  norm_num

theorem Quaternion.len_normalized (q : Quaternion) : q.normalized.len = 1 := by
  by_cases h0 : q.len = 0
  · unfold Quaternion.normalized
    rw [if_neg (fun hh : FloatEqual 1 q.len => by rw [← hh] at h0; norm_num at h0),
      if_pos (show FloatEqual q.len 0 from h0)]
    exact Quaternion.len_ident
  · rw [Quaternion.normalized_of_len_ne_zero h0, Quaternion.len_scale]
    have hpos : 0 < q.len :=
      lt_of_le_of_ne (Quaternion.len_def q ▸ Real.sqrt_nonneg _) (Ne.symm h0)
    rw [abs_of_pos (by positivity)]
    field_simp

theorem Quaternion.dot_le_one {q1 q2 : Quaternion}
    (h1 : q1.dot q1 = 1) (h2 : q2.dot q2 = 1) : q1.dot q2 ≤ 1 := by
  unfold Quaternion.dot at h1 h2 ⊢
  nlinarith [sq_nonneg (q1.w - q2.w), sq_nonneg (q1.v.x - q2.v.x),
    sq_nonneg (q1.v.y - q2.v.y), sq_nonneg (q1.v.z - q2.v.z)]

theorem Quaternion.neg_one_le_dot {q1 q2 : Quaternion}
    (h1 : q1.dot q1 = 1) (h2 : q2.dot q2 = 1) : -1 ≤ q1.dot q2 := by
  unfold Quaternion.dot at h1 h2 ⊢
  nlinarith [sq_nonneg (q1.w + q2.w), sq_nonneg (q1.v.x + q2.v.x),
    sq_nonneg (q1.v.y + q2.v.y), sq_nonneg (q1.v.z + q2.v.z)]

theorem Quaternion.eq_neg_of_dot_neg_one {q1 q2 : Quaternion}
    (h1 : q1.dot q1 = 1) (h2 : q2.dot q2 = 1) (hd : q1.dot q2 = -1) :
    q2 = q1.scale (-1) := by
  unfold Quaternion.dot at h1 h2 hd
  have hw : (q1.w + q2.w) ^ 2 = 0 := by
    nlinarith [sq_nonneg (q1.v.x + q2.v.x), sq_nonneg (q1.v.y + q2.v.y),
      sq_nonneg (q1.v.z + q2.v.z)]
  have hx : (q1.v.x + q2.v.x) ^ 2 = 0 := by
    nlinarith [sq_nonneg (q1.w + q2.w), sq_nonneg (q1.v.y + q2.v.y),
      sq_nonneg (q1.v.z + q2.v.z)]
  have hy : (q1.v.y + q2.v.y) ^ 2 = 0 := by
    nlinarith [sq_nonneg (q1.w + q2.w), sq_nonneg (q1.v.x + q2.v.x),
      sq_nonneg (q1.v.z + q2.v.z)]
  have hz : (q1.v.z + q2.v.z) ^ 2 = 0 := by
    nlinarith [sq_nonneg (q1.w + q2.w), sq_nonneg (q1.v.x + q2.v.x),
      sq_nonneg (q1.v.y + q2.v.y)]
  rw [pow_eq_zero_iff (two_ne_zero)] at hw hx hy hz
  ext <;> simp [Quaternion.scale, Vec3.mul] <;> linarith

theorem Quaternion.lerp_zero (q1 q2 : Quaternion) : QuatLerp q1 q2 0 = q1 := by
  unfold QuatLerp Quaternion.add Quaternion.sub Quaternion.scale
  ext <;> simp [Vec3.add, Vec3.sub, Vec3.mul]

theorem Quaternion.lerp_one (q1 q2 : Quaternion) : QuatLerp q1 q2 1 = q2 := by
  unfold QuatLerp Quaternion.add Quaternion.sub Quaternion.scale
  ext <;> simp only [Vec3.add, Vec3.sub, Vec3.mul] <;> ring

theorem Quaternion.dot_formula (a b : Quaternion) (c k : ℝ) :
    ((a.scale c).add (b.scale k)).dot ((a.scale c).add (b.scale k)) =
      c ^ 2 * a.dot a + 2 * c * k * (a.dot b) + k ^ 2 * (b.dot b) := by
  unfold Quaternion.dot Quaternion.add Quaternion.scale Vec3.add Vec3.mul
  ring

theorem Quaternion.dot_sub_scale_right (a b : Quaternion) (c : ℝ) :
    a.dot (b.sub (a.scale c)) = a.dot b - c * a.dot a := by
  unfold Quaternion.dot Quaternion.sub Quaternion.scale Vec3.sub Vec3.mul
  ring

theorem Quaternion.dot_sub_scale_self (a b : Quaternion) (c : ℝ) :
    (b.sub (a.scale c)).dot (b.sub (a.scale c)) =
      b.dot b - 2 * c * (a.dot b) + c ^ 2 * a.dot a := by
  unfold Quaternion.dot Quaternion.sub Quaternion.scale Vec3.sub Vec3.mul
  ring

theorem Quaternion.scale_zero (q : Quaternion) : q.scale 0 = ⟨0, ⟨0, 0, 0⟩⟩ := by
  ext <;> simp [Quaternion.scale, Vec3.mul]

theorem Quaternion.add_zero_right (q : Quaternion) : q.add ⟨0, ⟨0, 0, 0⟩⟩ = q := by
  ext <;> simp [Quaternion.add, Vec3.add]

theorem Quaternion.normalized_zero :
    (⟨0, ⟨0, 0, 0⟩⟩ : Quaternion).normalized = Quaternion.ident := by
  have hlen : (⟨0, ⟨0, 0, 0⟩⟩ : Quaternion).len = 0 := by
    unfold Quaternion.len
    norm_num
  unfold Quaternion.normalized
  rw [if_neg (fun hh : FloatEqual 1 _ => by rw [hlen] at hh; norm_num [FloatEqual] at hh),
    if_pos (show FloatEqual _ 0 from hlen)]

/-! Helper lemmas about the node transform cache. -/

theorem applyMutator_transformValid (m : Mutator) (n : Node) :
    (applyMutator m n).transformValid = false := by
  cases m <;> rfl

theorem getTransform_of_invalid (n : Node) (h : n.transformValid = false) :
    n.getTransform =
      (trsCompose n.position n.rotation n.scale,
       { n with transform := trsCompose n.position n.rotation n.scale,
                transformValid := true }) := by
  unfold Node.getTransform
  rw [if_neg (by simp [h])]
  rfl

theorem getTransform_of_valid (n : Node) (h : n.transformValid = true) :
    n.getTransform = (n.transform, n) := by
  unfold Node.getTransform
  rw [if_pos h]

theorem getTransform_fst (n : Node)
    (h : n.transformValid = true →
      n.transform = trsCompose n.position n.rotation n.scale) :
    (n.getTransform).1 = trsCompose n.position n.rotation n.scale := by
  by_cases hb : n.transformValid
  · rw [getTransform_of_valid n hb]
    exact h hb
  · rw [getTransform_of_invalid n (by simpa using hb)]

theorem applyMutators_cacheOK (ms : List Mutator) (n : Node)
    (h : n.transformValid = true →
      n.transform = trsCompose n.position n.rotation n.scale) :
    (applyMutators ms n).transformValid = true →
      (applyMutators ms n).transform =
        trsCompose (applyMutators ms n).position (applyMutators ms n).rotation
          (applyMutators ms n).scale := by
  induction ms generalizing n with
  | nil => exact h
  | cons m ms ih =>
    have hstep : applyMutators (m :: ms) n = applyMutators ms (applyMutator m n) := rfl
    rw [hstep]
    apply ih
    intro hv
    rw [applyMutator_transformValid] at hv
    cases hv

/-- C1: after every sequence of TRS mutator calls starting from a fresh
node, the local transform returned by getTransform equals the composition
built from identity by setting the translation column from position, then
multiplying in the rotation derived from the quaternion, then multiplying
in the scale: T(position) * R(rotation) * S(scale) in that fixed order. -/
theorem trs_compose_order (ms : List Mutator) :
    ((applyMutators ms Node.new).getTransform).1 =
      trsCompose (applyMutators ms Node.new).position
        (applyMutators ms Node.new).rotation (applyMutators ms Node.new).scale :=
  getTransform_fst _ (applyMutators_cacheOK ms Node.new (fun h => nomatch h))

/-- C2: the transform cache follows the two-state machine. A fresh node is
Dirty; every TRS mutator makes the cache Dirty; getTransform on a Dirty
cache recomposes the matrix and marks it Clean; getTransform on a Clean
cache returns the stored matrix with the node unchanged (no recompose), so
two queries with no mutation in between return identical matrices. -/
theorem transform_cache_state_machine :
    Node.new.transformValid = false ∧
    (∀ (m : Mutator) (n : Node), (applyMutator m n).transformValid = false) ∧
    (∀ n : Node, n.transformValid = false →
      n.getTransform =
        (trsCompose n.position n.rotation n.scale,
         { n with transform := trsCompose n.position n.rotation n.scale,
                  transformValid := true })) ∧
    (∀ n : Node, n.transformValid = true → n.getTransform = (n.transform, n)) ∧
    (∀ n : Node, ((n.getTransform).2.getTransform).1 = (n.getTransform).1) := by
  refine ⟨rfl, applyMutator_transformValid, getTransform_of_invalid,
    getTransform_of_valid, fun n => ?_⟩
  by_cases hb : n.transformValid
  · rw [getTransform_of_valid n hb]
    exact congrArg Prod.fst (getTransform_of_valid n hb)
  · rw [getTransform_of_invalid n (by simpa using hb)]
    exact congrArg Prod.fst (getTransform_of_valid _ rfl)

/-- Witness for C2 at concrete nodes: the fresh node recomposes and turns
Clean, a Clean node is served from the cache unchanged. -/
theorem transform_cache_state_machine_witness :
    Node.new.getTransform =
      (trsCompose Node.new.position Node.new.rotation Node.new.scale,
       { Node.new with
           transform := trsCompose Node.new.position Node.new.rotation Node.new.scale,
           transformValid := true }) ∧
    ({ Node.new with transformValid := true } : Node).getTransform =
      (({ Node.new with transformValid := true } : Node).transform,
       { Node.new with transformValid := true }) :=
  ⟨transform_cache_state_machine.2.2.1 Node.new rfl,
   transform_cache_state_machine.2.2.2.1 _ rfl⟩

/-- C3 counterexample: starting from rotation r = (0,(1,0,0)) and calling
RotateAroundAxis((0,1,0), pi), the axis-angle quaternion is
q = (0,(0,1,0)); the code leaves r * q = (0,(0,0,1)) in the node, which is
not q * r = (0,(0,0,-1)) as the claim states. -/
theorem rotate_order_counterexample :
    ((Node.new.setRotation ⟨0, ⟨1, 0, 0⟩⟩).rotateAroundAxis ⟨0, 1, 0⟩ Real.pi).rotation ≠
      (QuatRotate Real.pi ⟨0, 1, 0⟩).mul
        (Node.new.setRotation ⟨0, ⟨1, 0, 0⟩⟩).rotation := by
  have hq : QuatRotate Real.pi ⟨0, 1, 0⟩ = ⟨0, ⟨0, 1, 0⟩⟩ := by
    unfold QuatRotate
    have h2 : Real.pi * 0.5 = Real.pi / 2 := by ring
    rw [h2, Real.cos_pi_div_two, Real.sin_pi_div_two]
    simp [Vec3.mul]
  intro h
  have h3 := congrArg (fun a => a.v.z) h
  simp only [Node.rotateAroundAxis, Node.setRotation, hq, Quaternion.mul,
    Vec3.cross, Vec3.add, Vec3.mul, Vec3.dot] at h3
  norm_num at h3

/-- C3 amended: RotateAroundAxis multiplies the existing rotation on the
right by the new axis-angle quaternion, rotation * QuatRotate(angle, axis),
so the new rotation acts before the existing one. -/
theorem rotate_multiplies_new_on_right (n : Node) (axis : Vec3) (angle : ℝ) :
    (n.rotateAroundAxis axis angle).rotation =
      n.rotation.mul (QuatRotate angle axis) := rfl

/-- C10: GetPosition aliases the internal position field. After a
getTransform validated the cache, a store through the returned pointer
changes the position while the validity flag stays set, and the next
getTransform serves the stale cached matrix, which is not the composition
of the current position, rotation and scale. -/
theorem accessor_alias_breaks_cache :
    ((Node.new.getTransform).2.storeThroughGetPosition ⟨1, 2, 3⟩).transformValid = true ∧
    ((((Node.new.getTransform).2.storeThroughGetPosition ⟨1, 2, 3⟩).getTransform).1 ≠
      trsCompose ((Node.new.getTransform).2.storeThroughGetPosition ⟨1, 2, 3⟩).position
        ((Node.new.getTransform).2.storeThroughGetPosition ⟨1, 2, 3⟩).rotation
        ((Node.new.getTransform).2.storeThroughGetPosition ⟨1, 2, 3⟩).scale) := by
  rw [getTransform_of_invalid Node.new rfl]
  refine ⟨rfl, ?_⟩
  rw [getTransform_of_valid _ rfl]
  intro hEq
  have h12 := congrArg Mat4.m12 hEq
  simp only [Node.storeThroughGetPosition, Node.new, trsCompose, scaleVec3,
    rotateQuat, setTranslateVec3, scaleMat4, Quaternion.mat4, Quaternion.ident,
    Vec3.zero, Mat4.mul4] at h12
  norm_num at h12

/-- C8: for every unit quaternion (W*W + |V|*|V| = 1) and every 3-vector,
the optimised double-cross-product Rotate equals the imaginary part of the
full sandwich product q * (0, v) * conjugate(q); in the exact-real
embedding the two sides are equal exactly, hence within any epsilon. -/
theorem quaternion_rotate_matches_sandwich (q : Quaternion) (v : Vec3)
    (h : q.dot q = 1) :
    q.rotate v = ((q.mul ⟨0, v⟩).mul q.conjugated).v := by
  unfold Quaternion.dot at h
  simp only [Quaternion.rotate, Quaternion.mul, Quaternion.conjugated,
    Vec3.cross, Vec3.add, Vec3.mul, Vec3.dot]
  ext
  · linear_combination (-v.x) * h
  · linear_combination (-v.y) * h
  · linear_combination (-v.z) * h

/-- Witness for C8: the identity quaternion (a unit quaternion) rotating
the vector (1,2,3). -/
theorem quaternion_rotate_matches_sandwich_witness :
    Quaternion.ident.dot Quaternion.ident = 1 ∧
    Quaternion.ident.rotate ⟨1, 2, 3⟩ =
      ((Quaternion.ident.mul ⟨0, ⟨1, 2, 3⟩⟩).mul Quaternion.ident.conjugated).v :=
  ⟨by norm_num [Quaternion.dot, Quaternion.ident, Vec3.zero],
   quaternion_rotate_matches_sandwich _ _
     (by norm_num [Quaternion.dot, Quaternion.ident, Vec3.zero])⟩

/-- C9: AnglesToQuat fails hard (the panic in the default switch case,
modelled as none) exactly when the order argument is not one of the twelve
RotationOrder constants; on each of the twelve valid orders it returns a
quaternion. -/
theorem angles_to_quat_valid_orders (a1 a2 a3 : ℝ) (order : ℤ) :
    AnglesToQuat a1 a2 a3 order = none ↔
      ¬(order = XYX ∨ order = XYZ ∨ order = XZX ∨ order = XZY ∨
        order = YXY ∨ order = YXZ ∨ order = YZY ∨ order = YZX ∨
        order = ZYZ ∨ order = ZYX ∨ order = ZXZ ∨ order = ZXY) := by
  constructor
  · intro h hdisj
    rcases hdisj with rfl | rfl | rfl | rfl | rfl | rfl | rfl | rfl | rfl | rfl | rfl | rfl <;>
      simp [AnglesToQuat, XYX, XYZ, XZX, XZY, YXY, YXZ, YZY, YZX, ZYZ, ZYX,
        ZXZ, ZXY] at h
  · intro hn
    push_neg at hn
    simp only [XYX, XYZ, XZX, XZY, YXY, YXZ, YZY, YZX, ZYZ, ZYX, ZXZ, ZXY] at hn
    obtain ⟨n1, n2, n3, n4, n5, n6, n7, n8, n9, n10, n11, n12⟩ := hn
    simp [AnglesToQuat, XYX, XYZ, XZX, XZY, YXY, YXZ, YZY, YZX, ZYZ, ZYX,
      ZXZ, ZXY, n1, n2, n3, n4, n5, n6, n7, n8, n9, n10, n11, n12]

/-- C7 (amended): for unit quaternions q1, q2 and t in [0,1], QuatSlerp
reproduces q1 at t = 0 and q2 at t = 1 exactly, and the interpolated
quaternion has unit norm provided q1 and q2 are not antiparallel
(dot different from -1); in the antiparallel case the zero-vector
normalization fallback inside slerp produces non-unit results (see the
counterexample). -/
theorem slerp_endpoints_and_unit_norm (q1 q2 : Quaternion) (t : ℝ)
    (h1 : q1.len = 1) (h2 : q2.len = 1) (ht0 : 0 ≤ t) (ht1 : t ≤ 1) :
    QuatSlerp q1 q2 0 = q1 ∧ QuatSlerp q1 q2 1 = q2 ∧
      (q1.dot q2 ≠ -1 → (QuatSlerp q1 q2 t).len = 1) := by
  have hd1 : q1.dot q1 = 1 := (Quaternion.len_eq_one_iff q1).mp h1
  have hd2 : q2.dot q2 = 1 := (Quaternion.len_eq_one_iff q2).mp h2
  have hub : q1.dot q2 ≤ 1 := Quaternion.dot_le_one hd1 hd2
  have hlb : -1 ≤ q1.dot q2 := Quaternion.neg_one_le_dot hd1 hd2
  have hclamp : Clamp (q1.dot q2) (-1) 1 = q1.dot q2 := by
    unfold Clamp
    rw [max_eq_left hlb, min_eq_left hub]
  have hslerp : ∀ a : ℝ, QuatSlerp q1 q2 a =
      if q1.dot q2 > 0.9995 then QuatNlerp q1 q2 a
      else (q1.scale (Real.cos (Real.arccos (q1.dot q2) * a))).add
        (((q2.sub (q1.scale (q1.dot q2))).normalized).scale
          (Real.sin (Real.arccos (q1.dot q2) * a))) := by
    intro a
    simp only [QuatSlerp, Quaternion.normalized_of_len_one h1,
      Quaternion.normalized_of_len_one h2, hclamp]
  refine ⟨?_, ?_, ?_⟩
  · rw [hslerp 0]
    split_ifs with hgt
    · unfold QuatNlerp
      rw [Quaternion.lerp_zero, Quaternion.normalized_of_len_one h1]
    · rw [mul_zero, Real.cos_zero, Real.sin_zero, Quaternion.scale_zero,
        Quaternion.add_zero_right, Quaternion.scale_one]
  · rw [hslerp 1]
    split_ifs with hgt
    · unfold QuatNlerp
      rw [Quaternion.lerp_one, Quaternion.normalized_of_len_one h2]
    · rw [mul_one, Real.cos_arccos hlb hub, Real.sin_arccos]
      by_cases hneg : q1.dot q2 = -1
      · have hq2 : q2 = q1.scale (-1) := Quaternion.eq_neg_of_dot_neg_one hd1 hd2 hneg
        rw [hneg]
        have hs0 : Real.sqrt (1 - (-1 : ℝ) ^ 2) = 0 := by norm_num
        rw [hs0, Quaternion.scale_zero, Quaternion.add_zero_right]
        exact hq2.symm
      · push_neg at hgt
        have hgtm1 : -1 < q1.dot q2 := lt_of_le_of_ne hlb (Ne.symm hneg)
        have hpos : 0 < 1 - (q1.dot q2) ^ 2 := by nlinarith
        have hvd : (q2.sub (q1.scale (q1.dot q2))).dot (q2.sub (q1.scale (q1.dot q2))) =
            1 - (q1.dot q2) ^ 2 := by
          rw [Quaternion.dot_sub_scale_self, hd1, hd2]
          ring
        have hvlen : (q2.sub (q1.scale (q1.dot q2))).len =
            Real.sqrt (1 - (q1.dot q2) ^ 2) := by
          rw [Quaternion.len_def, hvd]
        have hsqrt_pos : 0 < Real.sqrt (1 - (q1.dot q2) ^ 2) := Real.sqrt_pos.mpr hpos
        rw [Quaternion.normalized_of_len_ne_zero (by rw [hvlen]; exact hsqrt_pos.ne'),
          hvlen, Quaternion.scale_scale, one_div, inv_mul_cancel₀ hsqrt_pos.ne',
          Quaternion.scale_one]
        ext <;> simp only [Quaternion.add, Quaternion.sub, Quaternion.scale,
          Vec3.add, Vec3.sub, Vec3.mul] <;> ring
  · intro hneg
    rw [hslerp t]
    split_ifs with hgt
    · unfold QuatNlerp
      exact Quaternion.len_normalized _
    · push_neg at hgt
      have hgtm1 : -1 < q1.dot q2 := lt_of_le_of_ne hlb (Ne.symm hneg)
      have hpos : 0 < 1 - (q1.dot q2) ^ 2 := by nlinarith
      have hvd : (q2.sub (q1.scale (q1.dot q2))).dot (q2.sub (q1.scale (q1.dot q2))) =
          1 - (q1.dot q2) ^ 2 := by
        rw [Quaternion.dot_sub_scale_self, hd1, hd2]
        ring
      have hvlen : (q2.sub (q1.scale (q1.dot q2))).len =
          Real.sqrt (1 - (q1.dot q2) ^ 2) := by
        rw [Quaternion.len_def, hvd]
      have hsqrt_pos : 0 < Real.sqrt (1 - (q1.dot q2) ^ 2) := Real.sqrt_pos.mpr hpos
      rw [Quaternion.normalized_of_len_ne_zero (by rw [hvlen]; exact hsqrt_pos.ne'),
        hvlen, Quaternion.scale_scale, Quaternion.len_eq_one_iff,
        Quaternion.dot_formula, hd1, Quaternion.dot_sub_scale_right, hvd, hd1]
      have hsq : Real.sqrt (1 - (q1.dot q2) ^ 2) ^ 2 = 1 - (q1.dot q2) ^ 2 :=
        Real.sq_sqrt hpos.le
      have hcs := Real.sin_sq_add_cos_sq (Real.arccos (q1.dot q2) * t)
      field_simp

/-- Witness for the amended C7 at q1 = q2 = identity and t = 1/2. -/
theorem slerp_endpoints_and_unit_norm_witness :
    Quaternion.ident.len = 1 ∧ (0 : ℝ) ≤ 1 / 2 ∧ (1 / 2 : ℝ) ≤ 1 ∧
      Quaternion.ident.dot Quaternion.ident ≠ -1 ∧
      QuatSlerp Quaternion.ident Quaternion.ident 0 = Quaternion.ident ∧
      QuatSlerp Quaternion.ident Quaternion.ident 1 = Quaternion.ident ∧
      (QuatSlerp Quaternion.ident Quaternion.ident (1 / 2)).len = 1 := by
  have hlen : Quaternion.ident.len = 1 := Quaternion.len_ident
  have hdot : Quaternion.ident.dot Quaternion.ident ≠ -1 := by
    norm_num [Quaternion.dot, Quaternion.ident, Vec3.zero]
  have h := slerp_endpoints_and_unit_norm Quaternion.ident Quaternion.ident (1 / 2)
    hlen hlen (by norm_num) (by norm_num)
  exact ⟨hlen, by norm_num, by norm_num, hdot, h.1, h.2.1, h.2.2 hdot⟩

/-- C7 counterexample: the identity quaternion and its negation are both
unit quaternions, yet slerp between them at t = 1/3 has norm
cos(pi/3) + sin(pi/3) = (1 + sqrt 3)/2, not 1: the inputs hit the
zero-vector normalization fallback, which contributes the identity
quaternion scaled by sin(theta). -/
theorem slerp_unit_norm_counterexample :
    Quaternion.ident.len = 1 ∧ (Quaternion.ident.scale (-1)).len = 1 ∧
      (0 : ℝ) ≤ 1 / 3 ∧ (1 / 3 : ℝ) ≤ 1 ∧
      (QuatSlerp Quaternion.ident (Quaternion.ident.scale (-1)) (1 / 3)).len ≠ 1 := by
  have hlen1 : Quaternion.ident.len = 1 := Quaternion.len_ident
  have hlen2 : (Quaternion.ident.scale (-1)).len = 1 := by
    rw [Quaternion.len_scale, Quaternion.len_ident]
    norm_num
  refine ⟨hlen1, hlen2, by norm_num, by norm_num, ?_⟩
  have hdot : Quaternion.ident.dot (Quaternion.ident.scale (-1)) = -1 := by
    norm_num [Quaternion.dot, Quaternion.ident, Quaternion.scale, Vec3.mul, Vec3.zero]
  have hclamp : Clamp (-1 : ℝ) (-1) 1 = -1 := by
    unfold Clamp
    norm_num
  have hsub : (Quaternion.ident.scale (-1)).sub
      (Quaternion.ident.scale (-1)) = (⟨0, ⟨0, 0, 0⟩⟩ : Quaternion) := by
    ext <;> simp [Quaternion.sub, Quaternion.scale, Quaternion.ident, Vec3.sub,
      Vec3.mul, Vec3.zero]
  have hth : Real.arccos (-1) * (1 / 3) = Real.pi / 3 := by
    rw [Real.arccos_neg_one]
    ring
  have hval : QuatSlerp Quaternion.ident (Quaternion.ident.scale (-1)) (1 / 3) =
      (Quaternion.ident.scale (Real.cos (Real.pi / 3))).add
        (Quaternion.ident.scale (Real.sin (Real.pi / 3))) := by
    simp only [QuatSlerp, Quaternion.normalized_of_len_one hlen1,
      Quaternion.normalized_of_len_one hlen2, hdot, hclamp, hth, hsub,
      Quaternion.normalized_zero]
    rw [if_neg (by norm_num)]
  rw [hval, Real.cos_pi_div_three, Real.sin_pi_div_three]
  have hres : (Quaternion.ident.scale (1 / 2)).add
      (Quaternion.ident.scale (Real.sqrt 3 / 2)) =
      (⟨1 / 2 + Real.sqrt 3 / 2, ⟨0, 0, 0⟩⟩ : Quaternion) := by
    ext <;> simp [Quaternion.add, Quaternion.scale, Quaternion.ident, Vec3.add,
      Vec3.mul, Vec3.zero]
  rw [hres]
  intro hEq
  have hnn : 0 ≤ (1 / 2 + Real.sqrt 3 / 2 : ℝ) := by positivity
  have hlen3 : (⟨1 / 2 + Real.sqrt 3 / 2, ⟨0, 0, 0⟩⟩ : Quaternion).len =
      1 / 2 + Real.sqrt 3 / 2 := by
    unfold Quaternion.len
    simp only [mul_zero, add_zero]
    rw [show (1 / 2 + Real.sqrt 3 / 2 : ℝ) * (1 / 2 + Real.sqrt 3 / 2) =
          (1 / 2 + Real.sqrt 3 / 2) ^ 2 by ring, Real.sqrt_sq hnn]
  rw [hlen3] at hEq
  have hs3 : Real.sqrt 3 ^ 2 = 3 := Real.sq_sqrt (by norm_num)
  nlinarith [hs3]

end Dax
